import Mathlib

/-!
Shallow embedding of the `ServerXmlDocument` tree-synchronization engine
(observer / applier / serializer for a Y.XmlElement tree), together with
theorems checking the specification's claims against it.

Conventions of the embedding:
* JS attribute records (`Record<string, any>`) are association lists
  `List (String × String)` with JS-object semantics: `setAttr` overwrites in
  place or appends (insertion order), `lookupAttr` finds the first entry.
* Y.XmlText state is its delta: a list of styled spans (`toDelta` is the
  identity, `applyDelta` on a fresh text node installs the spans).
* `uuid()` is modelled by a fresh-name supply threaded as a `Nat` counter;
  `genId n` stands for the n-th generated universally-unique string.
* Exceptions are modelled with `Except String` carrying the thrown message;
  the in-place mutation of the document is explicit state passing of the
  root node, and a failing operation returns the state reached so far
  together with the error (mutation before the throw persists).
* JS truthiness tests (`if (after)`, `if (delta.insert)`, ...) are modelled
  exactly: an absent or empty string is falsy, a present array is truthy
  even when empty, a number is falsy when `0`.
-/

/-- JS object used as a string-keyed attribute record, in insertion order. -/
abbrev Attrs := List (String × String)

/-- Model of `getAttribute` / JS property read: first matching key. -/
def lookupAttr (k : String) : Attrs → Option String
  | [] => none
  | (k', v) :: rest => if k' = k then some v else lookupAttr k rest

/-- Model of `setAttribute` / JS property write: overwrite in place, else append. -/
def setAttr : Attrs → String → String → Attrs
  | [], k, v => [(k, v)]
  | (k', v') :: rest, k, v =>
    if k' = k then (k, v) :: rest else (k', v') :: setAttr rest k v

/-- Model of `removeAttribute`: drop every entry with the key. -/
def removeAttr (a : Attrs) (k : String) : Attrs :=
  a.filter (fun kv => kv.1 ≠ k)

/-- Model of `Object.keys(m).forEach(k => target.setAttribute(k, m[k]))`. -/
def setAllAttrs (a : Attrs) (m : Attrs) : Attrs :=
  m.foldl (fun acc kv => setAttr acc kv.1 kv.2) a

/-- One styled span of a Y.XmlText delta: `{insert: str, attributes?}`. -/
structure Span where
  str : String
  attrs : Option Attrs
deriving Repr, DecidableEq

/-- A node of the replicated tree: a Y.XmlElement (tag, attributes, ordered
children) or a Y.XmlText whose state is its span delta. -/
inductive YNode where
  | elem (tag : String) (attrs : Attrs) (children : List YNode)
  | text (delta : List Span)

/-- Tag name of an element node (text nodes have none; `""` as a dummy). -/
def tagOf : YNode → String
  | .elem t _ _ => t
  | .text _ => ""

/-- Attribute record of an element node. -/
def attrsOf : YNode → Attrs
  | .elem _ a _ => a
  | .text _ => []

/-- The serialized / spec form of a node, as handled by `serialize` and
`createNodes`. A JSON element object may carry a `name` field (read by
`createNodes`) or a `tagName` field (written by `serialize`); both are kept
so that the two functions can be composed as the source composes them. -/
inductive NodeSpec where
  | element (name tagName : Option String) (attributes : Option Attrs)
      (children : Option (List NodeSpec))
  | text (delta : Option (List Span))

mutual

/-- Translation of `ServerXmlDocument.serialize`: an element becomes
`{element: {tagName, attributes, children}}` (children serialized in order;
`serialize` never returns a falsy value so the `if (m)` filter keeps all),
a text node becomes `{text: {delta: node.toDelta()}}`. -/
def serialize : YNode → NodeSpec
  | .elem tag attrs cs => .element none (some tag) (some attrs) (some (serializeList cs))
  | .text d => .text (some d)

def serializeList : List YNode → List NodeSpec
  | [] => []
  | n :: rest => serialize n :: serializeList rest

end

/-- The n-th string produced by the `uuid()` generator in the model. -/
def genId (n : Nat) : String := "uuid:" ++ Nat.repr n

mutual

/-- Translation of `ServerXmlDocument.createNodes` for one spec. For a text
spec a fresh
Y.XmlText is made and, when a delta is present (JS-truthy, arrays always
are), applied as its content. For an element spec,
`new Y.XmlElement(child.element.name)` defaults a missing `name` to the yjs
default node name `"UNDEFINED"`; `$id` is set to
`child.element.attributes?.id ?? uuid()` (nullish coalescing: an empty
string id is used as-is, `uuid()` only runs when there is no `id` key); all
given attributes are then copied in order (possibly overwriting `$id`);
given children are built recursively and inserted. The `Nat` is the uuid
supply, threaded left to right. -/
def createNode (fresh : Nat) : NodeSpec → YNode × Nat
  | .text od => (.text (od.getD []), fresh)
  | .element name _tagName oa och =>
    let explicitId := oa.bind (lookupAttr "id")
    let idVal := match explicitId with
      | some v => v
      | none => genId fresh
    let f1 := match explicitId with
      | some _ => fresh
      | none => fresh + 1
    let attrs1 := setAllAttrs (setAttr [] "$id" idVal) (oa.getD [])
    let (kids, f2) := match och with
      | some cs => createNodes f1 cs
      | none => ([], f1)
    (.elem (name.getD "UNDEFINED") attrs1 kids, f2)

def createNodes (fresh : Nat) : List NodeSpec → List YNode × Nat
  | [] => ([], fresh)
  | s :: rest =>
    let (n, f1) := createNode fresh s
    let (ns, f2) := createNodes f1 rest
    (n :: ns, f2)

end

/-- Model of JS truthiness for an optional string (`if (after)`,
`change.nodeID ? _ : _`): absent and `""` are falsy. -/
def jsTruthyStr : Option String → Bool
  | none => false
  | some s => s ≠ ""

/-- Model of JS truthiness for an optional number: absent and `0` are falsy. -/
def jsTruthyNum : Option Nat → Bool
  | none => false
  | some n => n ≠ 0

mutual

/-- Subtree reached by a list of child indices (a path from the root). -/
def getAt : YNode → List Nat → Option YNode
  | n, [] => some n
  | .elem _ _ cs, i :: p => getAtChildren cs i p
  | .text _, _ :: _ => none

def getAtChildren : List YNode → Nat → List Nat → Option YNode
  | [], _, _ => none
  | c :: _, 0, p => getAt c p
  | _ :: rest, i + 1, p => getAtChildren rest i p

end

mutual

/-- Replace the subtree at a path (identity off the tree). -/
def setAt : YNode → List Nat → YNode → YNode
  | _, [], r => r
  | .elem t a cs, i :: p, r => .elem t a (setAtChildren cs i p r)
  | .text d, _ :: _, _ => .text d

def setAtChildren : List YNode → Nat → List Nat → YNode → List YNode
  | [], _, _, _ => []
  | c :: rest, 0, p, r => setAt c p r :: rest
  | c :: rest, i + 1, p, r => c :: setAtChildren rest i p r

end

/-- Model of `element.delete(i, len)` on a child list: remove `len`
consecutive children starting at position `i`. -/
def deleteRange (l : List YNode) (i len : Nat) : List YNode :=
  l.take i ++ l.drop (i + len)

/-- Model of `element.insert(i, ns)` on a child list. -/
def insertAt (l : List YNode) (i : Nat) (ns : List YNode) : List YNode :=
  l.take i ++ ns ++ l.drop i

/-- Removal of the node at a (nonempty) path from its parent's child list:
the effect of `ServerXmlDocument.doDelete` on an attached non-root node
(the source locates the node's index among its parent's children by an
identity scan; for an attached node that index is the last path entry). -/
def removeAt (root : YNode) (p : List Nat) : YNode :=
  match p.getLast? with
  | none => root
  | some i =>
    match getAt root p.dropLast with
    | some (.elem t a cs) => setAt root p.dropLast (.elem t a (deleteRange cs i 1))
    | _ => root

mutual

/-- Translation of `ServerXmlDocument.findNode` (nonempty identifier case):
depth-first pre-order search for the first element whose `$id` attribute
equals `nodeID`, returned as a path; text nodes never match. -/
def findNodePath (nodeID : String) : YNode → Option (List Nat)
  | .elem _ a cs =>
    if lookupAttr "$id" a = some nodeID then some []
    else findNodePathChildren nodeID 0 cs
  | .text _ => none

def findNodePathChildren (nodeID : String) (i : Nat) : List YNode → Option (List Nat)
  | [] => none
  | c :: rest =>
    match findNodePath nodeID c with
    | some p => some (i :: p)
    | none => findNodePathChildren nodeID (i + 1) rest

end

/-- Translation of the `after`-resolution loop shared by `doInsertChildren`
and `doDeleteChildren`: walk the immediate children counting every child,
return the position of the first element child whose `$id` equals `after`
(text children are counted but never compared). -/
def findAfterIdx (after : String) : List YNode → Option Nat
  | [] => none
  | .elem _ a _ :: rest =>
    if lookupAttr "$id" a = some after then some 0
    else (findAfterIdx after rest).map (· + 1)
  | .text _ :: rest => (findAfterIdx after rest).map (· + 1)

/-- Character length of a span list. -/
def textLen (d : List Span) : Nat := (d.map (fun sp => sp.str.length)).sum

/-- Split a span list at a character offset (spans are cut as needed). -/
def splitSpans : List Span → Nat → List Span × List Span
  | [], _ => ([], [])
  | sp :: rest, i =>
    if i = 0 then ([], sp :: rest)
    else if i < sp.str.length then
      ([⟨sp.str.take i, sp.attrs⟩], ⟨sp.str.drop i, sp.attrs⟩ :: rest)
    else
      let (l, r) := splitSpans rest (i - sp.str.length)
      (sp :: l, r)

/-- Model of the external primitive `Y.XmlText.insert(index, text, attrs)`:
splice a new span in at the character offset. (The yjs primitive would
additionally inherit surrounding formatting when `attrs` is omitted; no
claim depends on that refinement.) -/
def textInsert (d : List Span) (i : Nat) (s : String) (attrs : Option Attrs) : List Span :=
  let (l, r) := splitSpans d i
  l ++ [⟨s, attrs⟩] ++ r

/-- Model of the external primitive `Y.XmlText.delete(index, length)`. -/
def textDelete (d : List Span) (i len : Nat) : List Span :=
  let (l, m) := splitSpans d i
  let (_, r) := splitSpans m len
  l ++ r

/-- Model of the external primitive `Y.XmlText.format(start, length, attrs)`:
merge the given formatting attributes over every span in the range. -/
def textFormat (d : List Span) (start len : Nat) (attrs : Attrs) : List Span :=
  let (l, m) := splitSpans d start
  let (mid, r) := splitSpans m len
  l ++ mid.map (fun sp => ⟨sp.str, some (setAllAttrs (sp.attrs.getD []) attrs)⟩) ++ r

/-- Translation of `ServerXmlDocument.doInsertChildren` on a target element
`(tag, attrs, cs)`: when `after` is JS-truthy it must resolve among the
immediate children (error before any node is built, even when `index` is
also given); on success `insertAfter` places the new nodes right after the
resolved child. Otherwise a given `index` is used (`element.insert` throws
`Length exceeded!` past the end, as the yjs primitive does), else the nodes
are pushed at the end. -/
def doInsertChildren (fresh : Nat) (tag : String) (attrs : Attrs) (cs : List YNode)
    (after : Option String) (index : Option Nat) (children : List NodeSpec) :
    Except String (YNode × Nat) :=
  if jsTruthyStr after then
    match findAfterIdx (after.getD "") cs with
    | none => .error ("Unable to find child element to insert after: " ++ after.getD "")
    | some i =>
      let (ns, f') := createNodes fresh children
      .ok (.elem tag attrs (insertAt cs (i + 1) ns), f')
  else
    match index with
    | some i =>
      let (ns, f') := createNodes fresh children
      if i ≤ cs.length then .ok (.elem tag attrs (insertAt cs i ns), f')
      else .error "Length exceeded!"
    | none =>
      let (ns, f') := createNodes fresh children
      .ok (.elem tag attrs (cs ++ ns), f')

/-- Translation of `ServerXmlDocument.doDeleteChildren`: when `after` is
JS-truthy, the loop leaves `i` at the position of the resolved child itself
(`i` is incremented only for the children before it) and the source then
calls `element.delete(i, length)` — so deletion starts at the resolved
child, not after it. Otherwise `index` is required. Out-of-range deletion
throws `Length exceeded!` as the yjs primitive does. -/
def doDeleteChildren (tag : String) (attrs : Attrs) (cs : List YNode)
    (after : Option String) (index : Option Nat) (length : Nat) :
    Except String YNode :=
  if jsTruthyStr after then
    match findAfterIdx (after.getD "") cs with
    | none => .error ("Unable to find child element to insert after: " ++ after.getD "")
    | some i =>
      if i + length ≤ cs.length then .ok (.elem tag attrs (deleteRange cs i length))
      else .error "Length exceeded!"
  else
    match index with
    | none => .error "No 'index' specified for deleteChildren."
    | some i =>
      if i + length ≤ cs.length then .ok (.elem tag attrs (deleteRange cs i length))
      else .error "Length exceeded!"

/-- Translation of `ServerXmlDocument.doRemoveAttributes`. -/
def doRemoveAttributes (attrs : Attrs) (keys : List String) : Attrs :=
  keys.foldl removeAttr attrs

/-- Translation of `ServerXmlDocument.doSetAttributes`: bulk `setAttribute`
over the record entries in key order. -/
def doSetAttributes (attrs : Attrs) (m : Attrs) : Attrs :=
  setAllAttrs attrs m

/-- Translation of `ServerXmlDocument.doInsertText`: the target's tag name
must be the reserved `"text"` tag, then the text is inserted into the first
child, which must be the Y.XmlText (the source's unchecked cast
`element.firstChild as Y.XmlText` fails at runtime otherwise). -/
def doInsertText (tag : String) (attrs : Attrs) (cs : List YNode)
    (index : Nat) (s : String) (argAttrs : Option Attrs) : Except String YNode :=
  if tag ≠ "text" then .error "Can only insert text in a text node."
  else
    match cs with
    | .text d :: rest =>
      if index ≤ textLen d then
        .ok (.elem tag attrs (.text (textInsert d index s argAttrs) :: rest))
      else .error "Length exceeded!"
    | _ => .error "firstChild is not a Y.XmlText"

/-- Translation of `ServerXmlDocument.doFormatText` (`attributes || {}`
defaults a missing record to the empty one). -/
def doFormatText (tag : String) (attrs : Attrs) (cs : List YNode)
    (start len : Nat) (argAttrs : Option Attrs) : Except String YNode :=
  if tag ≠ "text" then .error "Can only format text in a text node."
  else
    match cs with
    | .text d :: rest =>
      .ok (.elem tag attrs (.text (textFormat d start len (argAttrs.getD [])) :: rest))
    | _ => .error "firstChild is not a Y.XmlText"

/-- Translation of `ServerXmlDocument.doDeleteText`. -/
def doDeleteText (tag : String) (attrs : Attrs) (cs : List YNode)
    (index len : Nat) : Except String YNode :=
  if tag ≠ "text" then .error "Can only delete text in a text node."
  else
    match cs with
    | .text d :: rest =>
      if index + len ≤ textLen d then
        .ok (.elem tag attrs (.text (textDelete d index len) :: rest))
      else .error "Length exceeded!"
    | _ => .error "firstChild is not a Y.XmlText"

/-- Payload of `AppliedChange.insertChildren`. -/
structure InsertChildrenArgs where
  after : Option String := none
  index : Option Nat := none
  children : List NodeSpec

/-- Payload of `AppliedChange.deleteChildren`. -/
structure DeleteChildrenArgs where
  after : Option String := none
  index : Option Nat := none
  length : Nat

/-- Payload of `AppliedChange.insertText`. -/
structure InsertTextArgs where
  index : Nat
  text : String
  attributes : Option Attrs := none

/-- Payload of `AppliedChange.formatText` (`start` stands for the source's
`from`, a Lean keyword). -/
structure FormatTextArgs where
  start : Nat
  length : Nat
  attributes : Option Attrs := none

/-- Payload of `AppliedChange.deleteText`. -/
structure DeleteTextArgs where
  index : Nat
  length : Nat

/-- Translation of the `AppliedChange` command record. The `undo`/`redo`
fields delegate to the external `Y.UndoManager` (the History Controller is
an external collaborator) and are outside this embedding. -/
structure AppliedChange where
  nodeID : Option String := none
  delete : Bool := false
  insertChildren : Option InsertChildrenArgs := none
  deleteChildren : Option DeleteChildrenArgs := none
  removeAttributes : Option (List String) := none
  setAttributes : Option Attrs := none
  insertText : Option InsertTextArgs := none
  formatText : Option FormatTextArgs := none
  deleteText : Option DeleteTextArgs := none

/-- Document state: the `"xml"` root element plus the uuid supply. -/
structure DocState where
  root : YNode
  fresh : Nat

/-- Sequencing of the numbered sub-operations of one command: a step runs
only while no exception is pending; on an exception the state reached so
far is kept (in-place mutation persists past a throw). -/
def opStep (s : (YNode × Nat) × Option String)
    (f : YNode → Nat → (YNode × Nat) × Option String) : (YNode × Nat) × Option String :=
  match s with
  | ((t, fr), none) => f t fr
  | _ => s

/-- Step 2 of `applyChanges`: the `instanceof Y.XmlElement` guard, then
`doInsertChildren`. -/
def runInsertChildren (c : AppliedChange) (t : YNode) (fr : Nat) :
    (YNode × Nat) × Option String :=
  match c.insertChildren with
  | none => ((t, fr), none)
  | some a =>
    match t with
    | .text d => ((.text d, fr), some "Cannot insert children into a text node.")
    | .elem tg ats cs =>
      match doInsertChildren fr tg ats cs a.after a.index a.children with
      | .ok (t', fr') => ((t', fr'), none)
      | .error e => ((.elem tg ats cs, fr), some e)

/-- Step 3 of `applyChanges`: guard then `doDeleteChildren`. -/
def runDeleteChildren (c : AppliedChange) (t : YNode) (fr : Nat) :
    (YNode × Nat) × Option String :=
  match c.deleteChildren with
  | none => ((t, fr), none)
  | some a =>
    match t with
    | .text d => ((.text d, fr), some "Cannot delete children of a text node.")
    | .elem tg ats cs =>
      match doDeleteChildren tg ats cs a.after a.index a.length with
      | .ok t' => ((t', fr), none)
      | .error e => ((.elem tg ats cs, fr), some e)

/-- Step 4 of `applyChanges`: guard then `doRemoveAttributes`. -/
def runRemoveAttributes (c : AppliedChange) (t : YNode) (fr : Nat) :
    (YNode × Nat) × Option String :=
  match c.removeAttributes with
  | none => ((t, fr), none)
  | some keys =>
    match t with
    | .text d => ((.text d, fr), some "Cannot remove attributes from a text node.")
    | .elem tg ats cs => ((.elem tg (doRemoveAttributes ats keys) cs, fr), none)

/-- Step 5 of `applyChanges`: guard then `doSetAttributes`. -/
def runSetAttributes (c : AppliedChange) (t : YNode) (fr : Nat) :
    (YNode × Nat) × Option String :=
  match c.setAttributes with
  | none => ((t, fr), none)
  | some m =>
    match t with
    | .text d => ((.text d, fr), some "Cannot set attributes on a text node.")
    | .elem tg ats cs => ((.elem tg (doSetAttributes ats m) cs, fr), none)

/-- Step 6 of `applyChanges`: guard then `doInsertText`. -/
def runInsertText (c : AppliedChange) (t : YNode) (fr : Nat) :
    (YNode × Nat) × Option String :=
  match c.insertText with
  | none => ((t, fr), none)
  | some a =>
    match t with
    | .text d => ((.text d, fr), some "Node is not a text element.")
    | .elem tg ats cs =>
      match doInsertText tg ats cs a.index a.text a.attributes with
      | .ok t' => ((t', fr), none)
      | .error e => ((.elem tg ats cs, fr), some e)

/-- Step 7 of `applyChanges`: guard then `doFormatText`. -/
def runFormatText (c : AppliedChange) (t : YNode) (fr : Nat) :
    (YNode × Nat) × Option String :=
  match c.formatText with
  | none => ((t, fr), none)
  | some a =>
    match t with
    | .text d => ((.text d, fr), some "Node is not a text element.")
    | .elem tg ats cs =>
      match doFormatText tg ats cs a.start a.length a.attributes with
      | .ok t' => ((t', fr), none)
      | .error e => ((.elem tg ats cs, fr), some e)

/-- Step 8 of `applyChanges`: guard then `doDeleteText`. -/
def runDeleteText (c : AppliedChange) (t : YNode) (fr : Nat) :
    (YNode × Nat) × Option String :=
  match c.deleteText with
  | none => ((t, fr), none)
  | some a =>
    match t with
    | .text d => ((.text d, fr), some "Node is not a text element.")
    | .elem tg ats cs =>
      match doDeleteText tg ats cs a.index a.length with
      | .ok t' => ((t', fr), none)
      | .error e => ((.elem tg ats cs, fr), some e)

/-- Steps 2–8 of one command, run in the source's fixed order on the
resolved target node (the target was resolved once; these steps mutate it
in place, so they are a pure function of the target subtree). -/
def applySubOps (t : YNode) (fr : Nat) (c : AppliedChange) :
    (YNode × Nat) × Option String :=
  opStep (opStep (opStep (opStep (opStep (opStep (opStep ((t, fr), none)
    (runInsertChildren c)) (runDeleteChildren c)) (runRemoveAttributes c))
    (runSetAttributes c)) (runInsertText c)) (runFormatText c)) (runDeleteText c)

/-- Target resolution of one command
(`change.nodeID ? this.findNode(change.nodeID) : this._y`): the root —
path `[]` — when `nodeID` is JS-falsy (`findNode` likewise returns the
root for a falsy identifier), otherwise the depth-first search. -/
def resolveTarget (root : YNode) (nodeID : Option String) : Option (List Nat) :=
  if jsTruthyStr nodeID then findNodePath (nodeID.getD "") root else some []

/-- Translation of one iteration of the `applyChanges` loop. The target is
resolved once: the root when `nodeID` is JS-falsy, otherwise by
`findNode` (error when unresolved). Step 1 (`delete`) fails on the root
(`doDelete`: the root's parent is not an element) and otherwise removes the
node from its parent; steps 2–8 then run on the (possibly detached) target,
whose mutations are visible in the document only while it is attached. On
an exception the document keeps all mutations made before the throw. -/
def applyChange (st : DocState) (c : AppliedChange) : DocState × Option String :=
  match resolveTarget st.root c.nodeID with
  | none => (st, some ("Element was not found for nodeID " ++ c.nodeID.getD ""))
  | some p =>
    match getAt st.root p with
    | none => (st, some ("Element was not found for nodeID " ++ c.nodeID.getD ""))
    | some t =>
      if c.delete then
        match p with
        | [] => (st, some "Cannot delete top-level element.")
        | _ :: _ =>
          let root1 := removeAt st.root p
          let ((_, fr'), err) := applySubOps t st.fresh c
          ({ root := root1, fresh := fr' }, err)
      else
        let ((t', fr'), err) := applySubOps t st.fresh c
        ({ root := setAt st.root p t', fresh := fr' }, err)

/-- Translation of `ServerXmlDocument.applyChanges`: the commands run
strictly in input order; the first exception aborts the batch, keeping
everything already applied and running nothing further. -/
def applyChanges (st : DocState) : List AppliedChange → DocState × Option String
  | [] => (st, none)
  | c :: rest =>
    match applyChange st c with
    | (st', none) => applyChanges st' rest
    | (st', some e) => (st', some e)

/-- Insert payload of one raw element-list delta entry: yjs delivers an
array of inserted nodes, and the source also tolerates a single bare node
(`delta.insert instanceof Array ? delta.insert : [delta.insert]`). -/
inductive ElemInsertPayload where
  | arr (ns : List YNode)
  | single (n : YNode)

/-- One raw delta entry of an element-target event, with the fields the
handler reads. -/
structure ElemDeltaOp where
  insert : Option ElemInsertPayload := none
  delete : Option Nat := none
  retain : Option Nat := none

/-- One entry of the notification's `elements` sequence
(`ChangeNotificationElements`). -/
structure ElementsEntry where
  retain : Option Nat := none
  insert : Option (List NodeSpec) := none
  delete : Option Nat := none

/-- Translation of the element-delta loop of the `observeDeep` handler:
`if (delta.insert)` (an array or object is always JS-truthy) pushes
`{retain, insert: serialized children}`, `else if (delta.delete)` pushes
`{retain, delete}`, `else if (delta.retain)` pushes `{retain}`, and an
entry with none of the three is dropped. -/
def translateElemDelta : List ElemDeltaOp → List ElementsEntry
  | [] => []
  | op :: rest =>
    (match op.insert with
     | some (.arr ns) => [{ retain := op.retain, insert := some (serializeList ns) }]
     | some (.single n) => [{ retain := op.retain, insert := some [serialize n] }]
     | none =>
       if jsTruthyNum op.delete then [{ retain := op.retain, delete := op.delete }]
       else if jsTruthyNum op.retain then [{ retain := op.retain }]
       else []) ++ translateElemDelta rest

/-- Action of one attribute key change in a yjs event (`change.action`). -/
inductive KeyAction where
  | add
  | update
  | del
deriving DecidableEq

/-- One attribute key change: the action plus the event's old-value payload
(which the handler never reads — it re-reads the live attribute instead). -/
structure KeyChange where
  action : KeyAction
  oldValue : Option String := none
deriving DecidableEq

/-- One entry of the notification's `attributes.set` list. -/
structure AttrSetEntry where
  name : String
  value : Option String
deriving DecidableEq

/-- Translation of the attribute-key loop of the `observeDeep` handler:
an `add`/`update` key pushes `{name: key, value: target.getAttribute(key)}`
— the current post-change value read from the live element, never the
event's old value — and a `delete` action pushes the key onto the delete
list. `cur` is the target element's attribute record at notification time. -/
def translateAttrChanges (cur : Attrs) : List (String × KeyChange) → List AttrSetEntry × List String
  | [] => ([], [])
  | (k, ch) :: rest =>
    let (s, d) := translateAttrChanges cur rest
    match ch.action with
    | .add => ({ name := k, value := lookupAttr k cur } :: s, d)
    | .update => ({ name := k, value := lookupAttr k cur } :: s, d)
    | .del => (s, k :: d)

/-- Insert payload of one raw text delta entry: a string, or a span array. -/
inductive TextInsertPayload where
  | str (s : String)
  | arr (spans : List Span)
deriving DecidableEq

/-- JS truthiness of a text insert payload: `""` is falsy, arrays truthy. -/
def jsTruthyTextIns : Option TextInsertPayload → Bool
  | none => false
  | some (.str s) => s ≠ ""
  | some (.arr _) => true

/-- One raw delta entry of a text-target event: besides retain / insert /
delete, yjs carries the formatting attributes of styled inserts and of
format-only retains in an `attributes` field. -/
structure TextDeltaOp where
  insert : Option TextInsertPayload := none
  delete : Option Nat := none
  retain : Option Nat := none
  attributes : Option Attrs := none

/-- One entry of the notification's `text` sequence
(`ChangeNotificationText`), whose interface declares an optional
`attributes` field. -/
structure TextEntry where
  retain : Option Nat := none
  insert : Option TextInsertPayload := none
  delete : Option Nat := none
  attributes : Option Attrs := none
deriving DecidableEq

/-- Translation of the text-delta loop of the `observeDeep` handler: the
three branches copy only `retain`, `insert` and `delete`; the raw entry's
`attributes` are never copied. -/
def translateTextDelta : List TextDeltaOp → List TextEntry
  | [] => []
  | op :: rest =>
    (if jsTruthyTextIns op.insert then [{ retain := op.retain, insert := op.insert }]
     else if jsTruthyNum op.delete then [{ retain := op.retain, delete := op.delete }]
     else if jsTruthyNum op.retain then [{ retain := op.retain }]
     else []) ++ translateTextDelta rest

/-- The notification record passed to `notifyChanges`
(`ChangeNotification`), with its nested `attributes` object flattened into
the two lists it holds. -/
structure ChangeNotification where
  root : Bool
  target : Option String
  elements : List ElementsEntry
  attributesSet : List AttrSetEntry
  attributesDelete : List String
  text : List TextEntry

/-- Translation of the element branch of the `observeDeep` handler: one
event on an element target becomes one notification with the translated
element deltas and attribute key changes, `target` being the element's
`$id` (absent when it has none). -/
def elementEventMessage (isRoot : Bool) (targetAttrs : Attrs)
    (delta : List ElemDeltaOp) (keys : List (String × KeyChange)) : ChangeNotification :=
  let (s, d) := translateAttrChanges targetAttrs keys
  { root := isRoot
    target := lookupAttr "$id" targetAttrs
    elements := translateElemDelta delta
    attributesSet := s
    attributesDelete := d
    text := [] }

/-- Translation of the text branch of the `observeDeep` handler: `root` is
always false, `target` is the parent element's `$id`. -/
def textEventMessage (parentId : Option String) (delta : List TextDeltaOp) : ChangeNotification :=
  { root := false
    target := parentId
    elements := []
    attributesSet := []
    attributesDelete := []
    text := translateTextDelta delta }

/-- Modelled from the spec: the deep-change feed (`observeDeep` of the
external replication engine, §6 of the design) delivers, for one contiguous
insertion of the nodes `ns` at child position `p` of the target element, a
raw delta made of a retain entry covering the `p` preceding children
(absent when `p = 0`) followed by one insert entry carrying exactly the
inserted nodes. -/
def eventDeltaForInsert (p : Nat) (ns : List YNode) : List ElemDeltaOp :=
  (if p = 0 then [] else [{ retain := some p }]) ++ [{ insert := some (.arr ns) }]

theorem lookupAttr_setAttr_self (a : Attrs) (k v : String) :
    lookupAttr k (setAttr a k v) = some v := by
  induction a with
  | nil => simp [setAttr, lookupAttr]
  | cons kv rest ih =>
    obtain ⟨k', v'⟩ := kv
    by_cases h : k' = k
    · subst h
      simp [setAttr, lookupAttr]
    · simp [setAttr, lookupAttr, h, ih]

theorem lookupAttr_setAttr_ne (a : Attrs) (k k' v : String) (h : k' ≠ k) :
    lookupAttr k (setAttr a k' v) = lookupAttr k a := by
  induction a with
  | nil => simp [setAttr, lookupAttr, h]
  | cons kv rest ih =>
    obtain ⟨k0, v0⟩ := kv
    by_cases h0 : k0 = k'
    · subst h0
      simp [setAttr, lookupAttr, h]
    · by_cases h1 : k0 = k
      · subst h1
        simp [setAttr, lookupAttr, h0]
      · simp [setAttr, lookupAttr, h0, h1, ih]

theorem lookupAttr_eq_none_iff (a : Attrs) (k : String) :
    lookupAttr k a = none ↔ k ∉ a.map Prod.fst := by
  induction a with
  | nil => simp [lookupAttr]
  | cons kv rest ih =>
    obtain ⟨k0, v0⟩ := kv
    by_cases h : k0 = k
    · subst h
      simp [lookupAttr]
    · simp [lookupAttr, h, ih, Ne.symm h]

theorem lookupAttr_setAllAttrs_of_none (m init : Attrs) (k : String)
    (h : lookupAttr k m = none) :
    lookupAttr k (setAllAttrs init m) = lookupAttr k init := by
  induction m generalizing init with
  | nil => simp [setAllAttrs]
  | cons kv rest ih =>
    obtain ⟨k0, v0⟩ := kv
    simp only [lookupAttr] at h
    by_cases h0 : k0 = k
    · simp [h0] at h
    · rw [if_neg h0] at h
      simp only [setAllAttrs, List.foldl_cons]
      have := ih (setAttr init k0 v0) h
      simp only [setAllAttrs] at this
      rw [this, lookupAttr_setAttr_ne init k k0 v0 h0]

theorem lookupAttr_setAllAttrs_of_some (m : Attrs) (hn : (m.map Prod.fst).Nodup)
    (init : Attrs) (k v : String) (h : lookupAttr k m = some v) :
    lookupAttr k (setAllAttrs init m) = some v := by
  induction m generalizing init with
  | nil => simp [lookupAttr] at h
  | cons kv rest ih =>
    obtain ⟨k0, v0⟩ := kv
    simp only [List.map_cons, List.nodup_cons] at hn
    obtain ⟨hk0, hrest⟩ := hn
    simp only [lookupAttr] at h
    simp only [setAllAttrs, List.foldl_cons]
    by_cases h0 : k0 = k
    · subst h0
      rw [if_pos rfl] at h
      cases h
      have hnone : lookupAttr k0 rest = none := (lookupAttr_eq_none_iff rest k0).mpr hk0
      have := lookupAttr_setAllAttrs_of_none rest (setAttr init k0 v) k0 hnone
      simp only [setAllAttrs] at this
      rw [this, lookupAttr_setAttr_self]
    · rw [if_neg h0] at h
      have := ih hrest (setAttr init k0 v0) h
      simpa only [setAllAttrs] using this

theorem lookupAttr_setAttr_isSome (a : Attrs) (k k' v : String)
    (h : (lookupAttr k a).isSome) : (lookupAttr k (setAttr a k' v)).isSome := by
  by_cases hk : k' = k
  · subst hk
    simp [lookupAttr_setAttr_self]
  · rw [lookupAttr_setAttr_ne a k k' v hk]
    exact h

theorem lookupAttr_setAllAttrs_isSome (m init : Attrs) (k : String)
    (h : (lookupAttr k init).isSome) : (lookupAttr k (setAllAttrs init m)).isSome := by
  induction m generalizing init with
  | nil => simpa [setAllAttrs] using h
  | cons kv rest ih =>
    simp only [setAllAttrs, List.foldl_cons]
    have := ih (setAttr init kv.1 kv.2) (lookupAttr_setAttr_isSome init k kv.1 kv.2 h)
    simpa only [setAllAttrs] using this

theorem getAtChildren_setAtChildren (p : List Nat)
    (ih : ∀ r t, getAt r p = some t → setAt r p t = r) :
    ∀ (cs : List YNode) (i : Nat) (t : YNode),
      getAtChildren cs i p = some t → setAtChildren cs i p t = cs := by
  intro cs
  induction cs with
  | nil =>
    intro i t h
    simp [getAtChildren] at h
  | cons c rest ihc =>
    intro i t h
    cases i with
    | zero =>
      simp only [getAtChildren] at h
      simp only [setAtChildren]
      rw [ih c t h]
    | succ j =>
      simp only [getAtChildren] at h
      simp only [setAtChildren]
      rw [ihc j t h]

theorem setAt_getAt : ∀ (p : List Nat) (r t : YNode), getAt r p = some t → setAt r p t = r := by
  intro p
  induction p with
  | nil =>
    intro r t h
    simp only [getAt, Option.some.injEq] at h
    simp [setAt, h]
  | cons i p ih =>
    intro r t h
    cases r with
    | text d => simp [getAt] at h
    | elem tg a cs =>
      simp only [getAt] at h
      simp only [setAt, YNode.elem.injEq, true_and]
      exact getAtChildren_setAtChildren p ih cs i t h

/-- C10: every entry emitted by the observer's text-delta translation
carries only the retain, insert and delete fields — the `attributes` field
of a translated text delta is never populated, whatever formatting
attributes the raw delta entries carried. -/
theorem translateTextDelta_attributes_none (ops : List TextDeltaOp) (e : TextEntry)
    (he : e ∈ translateTextDelta ops) : e.attributes = none := by
  induction ops with
  | nil => simp [translateTextDelta] at he
  | cons op rest ih =>
    simp only [translateTextDelta, List.mem_append] at he
    rcases he with h | h
    · split_ifs at h <;> simp only [List.mem_singleton, List.not_mem_nil] at h <;>
        first
        | exact absurd h (by simp)
        | (subst h; rfl)
    · exact ih h

/-- Witness for C10: a styled insert whose raw delta carries a bold
formatting attribute is translated to an entry with no attributes. -/
theorem translateTextDelta_attributes_none_witness :
    (({ retain := none, insert := some (.str "x"), delete := none, attributes := none } : TextEntry) ∈
        translateTextDelta [⟨some (.str "x"), none, none, some [("bold", "true")]⟩]) ∧
    ({ retain := none, insert := some (.str "x"), delete := none, attributes := none } : TextEntry).attributes = none :=
  ⟨by decide,
   translateTextDelta_attributes_none [⟨some (.str "x"), none, none, some [("bold", "true")]⟩]
     { retain := none, insert := some (.str "x"), delete := none, attributes := none } (by decide)⟩

/-- C8: in the observer's attribute-key translation, every added or updated
key yields a `set` entry whose value is the attribute's current post-change
value (re-read from the live element — never the event's old value), every
deleted key lands in the delete list, and every emitted `set` entry's value
is the current value of its key. -/
theorem translateAttrChanges_current_values (cur : Attrs) (keys : List (String × KeyChange)) :
    (∀ k ch, (k, ch) ∈ keys →
      ((ch.action = .add ∨ ch.action = .update) →
        ({ name := k, value := lookupAttr k cur } : AttrSetEntry) ∈ (translateAttrChanges cur keys).1) ∧
      (ch.action = .del → k ∈ (translateAttrChanges cur keys).2)) ∧
    (∀ e ∈ (translateAttrChanges cur keys).1, e.value = lookupAttr e.name cur) := by
  induction keys with
  | nil =>
    constructor
    · intro k ch h
      simp at h
    · intro e he
      simp [translateAttrChanges] at he
  | cons hd rest ih =>
    obtain ⟨k0, ch0⟩ := hd
    obtain ⟨ih1, ih2⟩ := ih
    cases hrec : translateAttrChanges cur rest with
    | mk S D =>
      rw [hrec] at ih1 ih2
      cases hact : ch0.action with
      | add =>
        simp only [translateAttrChanges, hrec, hact]
        constructor
        · intro k ch hmem
          rcases List.mem_cons.mp hmem with heq | hmem'
          · obtain ⟨hk, hch⟩ := Prod.mk.injEq .. ▸ heq
            subst hk
            subst hch
            exact ⟨fun _ => List.mem_cons_self _ _, fun hd' => absurd (hact ▸ hd') (by simp [hact])⟩
          · exact ⟨fun ha => List.mem_cons_of_mem _ ((ih1 k ch hmem').1 ha),
                   fun hd' => (ih1 k ch hmem').2 hd'⟩
        · intro e he
          rcases List.mem_cons.mp he with heq | hmem'
          · subst heq
            rfl
          · exact ih2 e hmem'
      | update =>
        simp only [translateAttrChanges, hrec, hact]
        constructor
        · intro k ch hmem
          rcases List.mem_cons.mp hmem with heq | hmem'
          · obtain ⟨hk, hch⟩ := Prod.mk.injEq .. ▸ heq
            subst hk
            subst hch
            exact ⟨fun _ => List.mem_cons_self _ _, fun hd' => absurd (hact ▸ hd') (by simp [hact])⟩
          · exact ⟨fun ha => List.mem_cons_of_mem _ ((ih1 k ch hmem').1 ha),
                   fun hd' => (ih1 k ch hmem').2 hd'⟩
        · intro e he
          rcases List.mem_cons.mp he with heq | hmem'
          · subst heq
            rfl
          · exact ih2 e hmem'
      | del =>
        simp only [translateAttrChanges, hrec, hact]
        constructor
        · intro k ch hmem
          rcases List.mem_cons.mp hmem with heq | hmem'
          · obtain ⟨hk, hch⟩ := Prod.mk.injEq .. ▸ heq
            subst hk
            subst hch
            refine ⟨fun ha => ?_, fun _ => List.mem_cons_self _ _⟩
            rcases ha with h' | h' <;> simp [hact] at h'
          · exact ⟨fun ha => (ih1 k ch hmem').1 ha,
                   fun hd' => List.mem_cons_of_mem _ ((ih1 k ch hmem').2 hd')⟩
        · exact ih2

/-- Witness for C8: an update of `foo` (whose event old value differs from
the live value) yields a set entry with the current value, a delete of
`bar` lands in the delete list. -/
theorem translateAttrChanges_current_values_witness :
    ({ name := "foo", value := some "new" } : AttrSetEntry) ∈
        (translateAttrChanges [("foo", "new")]
          [("foo", ⟨.update, some "old"⟩), ("bar", ⟨.del, some "x"⟩)]).1 ∧
    "bar" ∈ (translateAttrChanges [("foo", "new")]
          [("foo", ⟨.update, some "old"⟩), ("bar", ⟨.del, some "x"⟩)]).2 :=
  ⟨((translateAttrChanges_current_values [("foo", "new")]
        [("foo", ⟨.update, some "old"⟩), ("bar", ⟨.del, some "x"⟩)]).1
      "foo" ⟨.update, some "old"⟩ (by decide)).1 (Or.inr rfl),
   ((translateAttrChanges_current_values [("foo", "new")]
        [("foo", ⟨.update, some "old"⟩), ("bar", ⟨.del, some "x"⟩)]).1
      "bar" ⟨.del, some "x"⟩ (by decide)).2 rfl⟩

/-- C4: a delete command whose resolved target is the document root fails
(`doDelete` refuses a node whose parent is not an element) and the document
is left unchanged by the command. -/
theorem applyChange_delete_root_fails (st : DocState) (c : AppliedChange)
    (hdel : c.delete = true) (hroot : resolveTarget st.root c.nodeID = some []) :
    applyChange st c = (st, some "Cannot delete top-level element.") := by
  unfold applyChange
  rw [hroot]
  simp [getAt, hdel]

/-- Witness for C4: deleting with no target identifier (which resolves to
the root) fails and leaves the tree unchanged. -/
theorem applyChange_delete_root_fails_witness :
    applyChange ⟨.elem "xml" [] [], 0⟩ { delete := true } =
      (⟨.elem "xml" [] [], 0⟩, some "Cannot delete top-level element.") :=
  applyChange_delete_root_fails ⟨.elem "xml" [] [], 0⟩ { delete := true } rfl rfl

/-- C5: an `insertText`, `formatText` or `deleteText` sub-command whose
resolved target element is not tagged with the reserved `"text"` tag fails
with the corresponding type-mismatch error, and (the sub-command being the
first to act) the document is unchanged. -/
theorem textCommands_require_text_tag (st : DocState) (c : AppliedChange)
    (p : List Nat) (tag : String) (attrs : Attrs) (cs : List YNode)
    (hres : resolveTarget st.root c.nodeID = some p)
    (hget : getAt st.root p = some (.elem tag attrs cs))
    (htag : tag ≠ "text")
    (hdel : c.delete = false) (hic : c.insertChildren = none)
    (hdc : c.deleteChildren = none) (hra : c.removeAttributes = none)
    (hsa : c.setAttributes = none) :
    (∀ a, c.insertText = some a →
      applyChange st c = (st, some "Can only insert text in a text node.")) ∧
    (c.insertText = none → ∀ a, c.formatText = some a →
      applyChange st c = (st, some "Can only format text in a text node.")) ∧
    (c.insertText = none → c.formatText = none → ∀ a, c.deleteText = some a →
      applyChange st c = (st, some "Can only delete text in a text node.")) := by
  have hself : setAt st.root p (.elem tag attrs cs) = st.root := setAt_getAt p st.root _ hget
  refine ⟨?_, ?_, ?_⟩
  · intro a hit
    have hsub : applySubOps (.elem tag attrs cs) st.fresh c =
        ((.elem tag attrs cs, st.fresh), some "Can only insert text in a text node.") := by
      unfold applySubOps opStep runInsertChildren runDeleteChildren runRemoveAttributes
        runSetAttributes runInsertText runFormatText runDeleteText
      simp [hic, hdc, hra, hsa, hit, doInsertText, htag]
    unfold applyChange
    rw [hres]
    dsimp only
    rw [hget]
    dsimp only
    rw [hdel, hsub]
    simp only [Bool.false_eq_true, if_false, hself]
  · intro hit a hft
    have hsub : applySubOps (.elem tag attrs cs) st.fresh c =
        ((.elem tag attrs cs, st.fresh), some "Can only format text in a text node.") := by
      unfold applySubOps opStep runInsertChildren runDeleteChildren runRemoveAttributes
        runSetAttributes runInsertText runFormatText runDeleteText
      simp [hic, hdc, hra, hsa, hit, hft, doFormatText, htag]
    unfold applyChange
    rw [hres]
    dsimp only
    rw [hget]
    dsimp only
    rw [hdel, hsub]
    simp only [Bool.false_eq_true, if_false, hself]
  · intro hit hft a hdt
    have hsub : applySubOps (.elem tag attrs cs) st.fresh c =
        ((.elem tag attrs cs, st.fresh), some "Can only delete text in a text node.") := by
      unfold applySubOps opStep runInsertChildren runDeleteChildren runRemoveAttributes
        runSetAttributes runInsertText runFormatText runDeleteText
      simp [hic, hdc, hra, hsa, hit, hft, hdt, doDeleteText, htag]
    unfold applyChange
    rw [hres]
    dsimp only
    rw [hget]
    dsimp only
    rw [hdel, hsub]
    simp only [Bool.false_eq_true, if_false, hself]

/-- Witness for C5: `insertText` against a `div`-tagged element fails with
the type-mismatch error and leaves the document unchanged. -/
theorem textCommands_require_text_tag_witness :
    applyChange ⟨.elem "xml" [("$id", "r")] [.elem "div" [("$id", "d")] []], 5⟩
      { nodeID := some "d", insertText := some { index := 0, text := "hi" } } =
      (⟨.elem "xml" [("$id", "r")] [.elem "div" [("$id", "d")] []], 5⟩,
       some "Can only insert text in a text node.") :=
  (textCommands_require_text_tag
      ⟨.elem "xml" [("$id", "r")] [.elem "div" [("$id", "d")] []], 5⟩
      { nodeID := some "d", insertText := some { index := 0, text := "hi" } }
      [0] "div" [("$id", "d")] [] rfl rfl (by decide) rfl rfl rfl rfl rfl).1
    { index := 0, text := "hi" } rfl

/-- Resolution soundness of the `after` scan: a returned position indexes
an element child of the list that carries the sought `$id`. -/
theorem findAfterIdx_spec (a : String) :
    ∀ (cs : List YNode) (i : Nat), findAfterIdx a cs = some i →
      ∃ t' a' cs', cs[i]? = some (YNode.elem t' a' cs') ∧ lookupAttr "$id" a' = some a := by
  intro cs
  induction cs with
  | nil =>
    intro i h
    simp [findAfterIdx] at h
  | cons c rest ih =>
    intro i h
    cases c with
    | elem t' a' cs' =>
      by_cases hid : lookupAttr "$id" a' = some a
      · simp only [findAfterIdx, if_pos hid] at h
        cases h
        exact ⟨t', a', cs', by simp, hid⟩
      · simp only [findAfterIdx, if_neg hid] at h
        cases hfi : findAfterIdx a rest with
        | none =>
          rw [hfi] at h
          simp at h
        | some j =>
          rw [hfi] at h
          simp only [Option.map_some'] at h
          cases h
          obtain ⟨t2, a2, cs2, hg, hl⟩ := ih j hfi
          exact ⟨t2, a2, cs2, by simpa using hg, hl⟩
    | text d =>
      simp only [findAfterIdx] at h
      cases hfi : findAfterIdx a rest with
      | none =>
        rw [hfi] at h
        simp at h
      | some j =>
        rw [hfi] at h
        simp only [Option.map_some'] at h
        cases h
        obtain ⟨t2, a2, cs2, hg, hl⟩ := ih j hfi
        exact ⟨t2, a2, cs2, by simpa using hg, hl⟩

/-- C6: position semantics of `insertChildren`. When `after` is given (a
non-empty reference), it must resolve by `$id` among the target's immediate
children: on success the fresh nodes are inserted immediately after the
resolved child (position `i + 1`), on failure the command errors even when
`index` is also given; with no (truthy) `after` and a given in-range
`index` the nodes are inserted at that position; with neither the nodes are
appended at the end. -/
theorem doInsertChildren_position_semantics
    (fresh : Nat) (tag : String) (attrs : Attrs) (cs : List YNode)
    (after : Option String) (index : Option Nat) (children : List NodeSpec) :
    (∀ a, after = some a → a ≠ "" →
      (∀ i, findAfterIdx a cs = some i →
        doInsertChildren fresh tag attrs cs after index children =
          .ok (.elem tag attrs (insertAt cs (i + 1) (createNodes fresh children).1),
               (createNodes fresh children).2) ∧
        ∃ t' a' cs', cs[i]? = some (YNode.elem t' a' cs') ∧ lookupAttr "$id" a' = some a) ∧
      (findAfterIdx a cs = none →
        doInsertChildren fresh tag attrs cs after index children =
          .error ("Unable to find child element to insert after: " ++ a))) ∧
    (jsTruthyStr after = false → ∀ i, index = some i → i ≤ cs.length →
      doInsertChildren fresh tag attrs cs after index children =
        .ok (.elem tag attrs (insertAt cs i (createNodes fresh children).1),
             (createNodes fresh children).2)) ∧
    (jsTruthyStr after = false → index = none →
      doInsertChildren fresh tag attrs cs after index children =
        .ok (.elem tag attrs (cs ++ (createNodes fresh children).1),
             (createNodes fresh children).2)) := by
  refine ⟨?_, ?_, ?_⟩
  · intro a ha hne
    subst ha
    have ht : jsTruthyStr (some a) = true := by simp [jsTruthyStr, hne]
    constructor
    · intro i hfi
      refine ⟨?_, findAfterIdx_spec a cs i hfi⟩
      unfold doInsertChildren
      rw [ht]
      simp only [Option.getD_some, hfi, if_true]
    · intro hfi
      unfold doInsertChildren
      rw [ht]
      simp only [Option.getD_some, hfi, if_true]
  · intro hf i hidx hle
    subst hidx
    unfold doInsertChildren
    rw [hf]
    simp only [Bool.false_eq_true, if_false, hle, if_true]
  · intro hf hidx
    subst hidx
    unfold doInsertChildren
    rw [hf]
    simp only [Bool.false_eq_true, if_false]

/-- Witness for C6: with both `after` and `index` given, `after` wins — the
new node lands immediately after the resolved child, not at `index`. -/
theorem doInsertChildren_position_semantics_witness :
    doInsertChildren 0 "xml" [("$id", "r")]
        [.elem "div" [("$id", "a")] [], .elem "div" [("$id", "b")] []]
        (some "a") (some 99) [.element (some "p") none (some [("id", "k")]) none] =
      .ok (.elem "xml" [("$id", "r")]
            [.elem "div" [("$id", "a")] [],
             .elem "p" [("$id", "k"), ("id", "k")] [],
             .elem "div" [("$id", "b")] []], 0) :=
  (((doInsertChildren_position_semantics 0 "xml" [("$id", "r")]
        [.elem "div" [("$id", "a")] [], .elem "div" [("$id", "b")] []]
        (some "a") (some 99) [.element (some "p") none (some [("id", "k")]) none]).1
      "a" rfl (by decide)).1 0 rfl).1

/-- C7: evaluation at the failing input. Two children `a`, `b`;
`deleteChildren {after: "a", length: 1}` removes the resolved child `a`
itself (the tree keeps `b`), although the command, the source's own doc
comment and the specification describe removal of the children immediately
after the resolved child (which would have removed `b`). -/
theorem doDeleteChildren_after_deletes_resolved_child :
    applyChange ⟨.elem "xml" [("$id", "root")]
        [.elem "div" [("$id", "a")] [], .elem "div" [("$id", "b")] []], 0⟩
      { nodeID := some "root",
        deleteChildren := some { after := some "a", length := 1 } } =
      (⟨.elem "xml" [("$id", "root")] [.elem "div" [("$id", "b")] []], 0⟩, none) := rfl

/-- C3: a batch stops at its first failing command — when `applyChanges`
reports an error, there is a position `k` such that the whole prefix before
`k` was applied (its final state is the reported document state produced by
the failing command from the prefix state, never rolled back) and nothing
past `k` ran. -/
theorem applyChanges_stops_at_first_failure :
    ∀ (batch : List AppliedChange) (st fin : DocState) (e : String),
      applyChanges st batch = (fin, some e) →
      ∃ k, ∃ hk : k < batch.length, ∃ stk : DocState,
        applyChanges st (batch.take k) = (stk, none) ∧
        applyChange stk (batch.get ⟨k, hk⟩) = (fin, some e) := by
  intro batch
  induction batch with
  | nil =>
    intro st fin e h
    simp [applyChanges] at h
  | cons c rest ih =>
    intro st fin e h
    unfold applyChanges at h
    cases hc : applyChange st c with
    | mk st' err =>
      rw [hc] at h
      cases err with
      | none =>
        obtain ⟨k, hk, stk, h1, h2⟩ := ih st' fin e h
        refine ⟨k + 1, by simpa using Nat.succ_lt_succ hk, stk, ?_, ?_⟩
        · rw [List.take_succ_cons]
          unfold applyChanges
          rw [hc]
          exact h1
        · simpa using h2
      | some e' =>
        obtain ⟨h1, h2⟩ := Prod.mk.injEq .. ▸ h
        cases h2
        subst h1
        exact ⟨0, by simp, st, by simp [applyChanges], by simpa using hc⟩

/-- Concrete batch for the C3 witness: a valid insert followed by a command
targeting a missing identifier (the specification's partial-batch
application scenario). -/
def c3Batch : List AppliedChange :=
  [{ insertChildren := some { index := some 0,
                              children := [.element (some "div") none (some [("id", "c1")]) none] } },
   { nodeID := some "missing", delete := true }]

/-- Witness for C3: the batch fails at the second command, with the first
command's insertion still applied in the reported final state. -/
theorem applyChanges_stops_at_first_failure_witness :
    ∃ k, ∃ hk : k < c3Batch.length, ∃ stk : DocState,
      applyChanges ⟨.elem "xml" [("$id", "root")] [], 0⟩ (c3Batch.take k) = (stk, none) ∧
      applyChange stk (c3Batch.get ⟨k, hk⟩) =
        (⟨.elem "xml" [("$id", "root")] [.elem "div" [("$id", "c1"), ("id", "c1")] []], 0⟩,
         some "Element was not found for nodeID missing") :=
  applyChanges_stops_at_first_failure c3Batch ⟨.elem "xml" [("$id", "root")] [], 0⟩
    ⟨.elem "xml" [("$id", "root")] [.elem "div" [("$id", "c1"), ("id", "c1")] []], 0⟩
    "Element was not found for nodeID missing" rfl

/-- Translation of the modelled insertion event: the observer turns it into
a retain entry (when the offset is nonzero) followed by one entry whose
insert payload is the serialization of exactly the inserted nodes. -/
theorem translateElemDelta_eventDeltaForInsert (p : Nat) (ns : List YNode) :
    translateElemDelta (eventDeltaForInsert p ns) =
      (if p = 0 then [] else [{ retain := some p }]) ++
        [{ retain := none, insert := some (serializeList ns), delete := none }] := by
  by_cases hp : p = 0
  · subst hp
    simp [eventDeltaForInsert, translateElemDelta]
  · simp [eventDeltaForInsert, translateElemDelta, hp, jsTruthyNum]

/-- C2: whenever an `insertChildren` command succeeds, there is a position
`p ≤` the child count such that the fresh nodes were inserted at `p`, and
the observer's translation of the resulting insertion event is exactly a
retain-`p` entry (absent when `p = 0`) followed by one `insert` entry whose
payload is `serialize` of exactly the inserted nodes. -/
theorem observer_insert_duality
    (fresh : Nat) (tag : String) (attrs : Attrs) (cs : List YNode)
    (after : Option String) (index : Option Nat) (children : List NodeSpec)
    (out : YNode) (f' : Nat)
    (h : doInsertChildren fresh tag attrs cs after index children = .ok (out, f')) :
    ∃ p, p ≤ cs.length ∧
      out = .elem tag attrs (insertAt cs p (createNodes fresh children).1) ∧
      f' = (createNodes fresh children).2 ∧
      translateElemDelta (eventDeltaForInsert p (createNodes fresh children).1) =
        (if p = 0 then [] else [{ retain := some p }]) ++
          [{ retain := none, insert := some (serializeList (createNodes fresh children).1),
             delete := none }] := by
  cases hcn : createNodes fresh children with
  | mk ns f2 =>
    unfold doInsertChildren at h
    rw [hcn] at h
    by_cases ht : jsTruthyStr after = true
    · rw [if_pos ht] at h
      cases hfi : findAfterIdx (after.getD "") cs with
      | none =>
        rw [hfi] at h
        cases h
      | some i =>
        rw [hfi] at h
        dsimp only at h
        simp only [Except.ok.injEq, Prod.mk.injEq] at h
        obtain ⟨hout, hf⟩ := h
        obtain ⟨t2, a2, cs2, hg, _⟩ := findAfterIdx_spec (after.getD "") cs i hfi
        have hi : i < cs.length := by
          by_contra hgt
          rw [List.getElem?_eq_none (by omega)] at hg
          cases hg
        refine ⟨i + 1, by omega, ?_, ?_, ?_⟩
        · rw [← hout]
        · rw [← hf]
        · exact translateElemDelta_eventDeltaForInsert (i + 1) ns
    · rw [if_neg ht] at h
      cases index with
      | some i =>
        dsimp only at h
        by_cases hle : i ≤ cs.length
        · rw [if_pos hle] at h
          simp only [Except.ok.injEq, Prod.mk.injEq] at h
          obtain ⟨hout, hf⟩ := h
          refine ⟨i, hle, ?_, ?_, ?_⟩
          · rw [← hout]
          · rw [← hf]
          · exact translateElemDelta_eventDeltaForInsert i ns
        · rw [if_neg hle] at h
          cases h
      | none =>
        dsimp only at h
        simp only [Except.ok.injEq, Prod.mk.injEq] at h
        obtain ⟨hout, hf⟩ := h
        refine ⟨cs.length, le_refl _, ?_, ?_, ?_⟩
        · rw [← hout]
          simp [insertAt]
        · rw [← hf]
        · exact translateElemDelta_eventDeltaForInsert cs.length ns

/-- Witness for C2: a successful insert at index 1 next to one existing
child; the translated event is a retain-1 entry followed by the serialized
inserted node. -/
theorem observer_insert_duality_witness :
    ∃ p, p ≤ ([YNode.elem "div" [("$id", "a")] []] : List YNode).length ∧
      (YNode.elem "xml" [("$id", "r")]
          [.elem "div" [("$id", "a")] [], .elem "p" [("$id", "k"), ("id", "k")] []]) =
        .elem "xml" [("$id", "r")]
          (insertAt [.elem "div" [("$id", "a")] []] p
            (createNodes 0 [.element (some "p") none (some [("id", "k")]) none]).1) ∧
      (0 : Nat) = (createNodes 0 [.element (some "p") none (some [("id", "k")]) none]).2 ∧
      translateElemDelta (eventDeltaForInsert p
          (createNodes 0 [.element (some "p") none (some [("id", "k")]) none]).1) =
        (if p = 0 then [] else [{ retain := some p }]) ++
          [{ retain := none,
             insert := some (serializeList
               (createNodes 0 [.element (some "p") none (some [("id", "k")]) none]).1),
             delete := none }] :=
  observer_insert_duality 0 "xml" [("$id", "r")] [.elem "div" [("$id", "a")] []]
    none (some 1) [.element (some "p") none (some [("id", "k")]) none]
    (.elem "xml" [("$id", "r")]
      [.elem "div" [("$id", "a")] [], .elem "p" [("$id", "k"), ("id", "k")] []]) 0 rfl

/-- Unfolding of `createNodes` on a cons, with the uuid-supply threading
made explicit. -/
theorem createNodes_cons (fresh : Nat) (s : NodeSpec) (ss : List NodeSpec) :
    createNodes fresh (s :: ss) =
      ((createNode fresh s).1 :: (createNodes (createNode fresh s).2 ss).1,
       (createNodes (createNode fresh s).2 ss).2) := by
  cases hcs : createNode fresh s with
  | mk n f1 =>
    cases hcr : createNodes f1 ss with
    | mk ns f2 => simp [createNodes, hcs, hcr]

/-- Attribute record of a rebuilt element: setting `$id` first and then
copying a duplicate-free record that itself contains `$id` restores the
original record pointwise. -/
theorem lookupAttr_rebuild (attrs : Attrs) (idVal : String)
    (hid : (lookupAttr "$id" attrs).isSome = true)
    (hn : (attrs.map Prod.fst).Nodup) (k : String) :
    lookupAttr k (setAllAttrs (setAttr [] "$id" idVal) attrs) = lookupAttr k attrs := by
  cases hl : lookupAttr k attrs with
  | some v => exact lookupAttr_setAllAttrs_of_some attrs hn _ k v hl
  | none =>
    rw [lookupAttr_setAllAttrs_of_none attrs _ k hl]
    by_cases hk : k = "$id"
    · subst hk
      rw [hl] at hid
      cases hid
    · simp only [setAttr, lookupAttr]
      rw [if_neg (fun hcontra => hk hcontra.symm)]

/-- Equality-up-to-retagging realised by `buildNodes ∘ serialize`: the
rebuilt node agrees on text deltas, attribute maps (pointwise by key — in
particular `$id` is preserved exactly) and child structure at all depths,
but every rebuilt element's tag name is the yjs default `"UNDEFINED"`
(because `serialize` writes `tagName` while `createNodes` reads `name`). -/
inductive ReconEq : YNode → YNode → Prop where
  | text (d : List Span) : ReconEq (.text d) (.text d)
  | elem (tag : String) (attrs : Attrs) (cs : List YNode) (attrs' : Attrs) (cs' : List YNode) :
      (∀ k, lookupAttr k attrs' = lookupAttr k attrs) →
      List.Forall₂ ReconEq cs cs' →
      ReconEq (.elem tag attrs cs) (.elem "UNDEFINED" attrs' cs')

/-- Well-formedness for the round-trip statement: every element of the
subtree carries a `$id` attribute and a duplicate-free attribute record
(true of any attached Y.XmlElement: its attributes form a map and the
engine assigns identifiers at insertion). -/
inductive WfTree : YNode → Prop where
  | text (d : List Span) : WfTree (.text d)
  | elem (tag : String) (attrs : Attrs) (cs : List YNode) :
      (lookupAttr "$id" attrs).isSome = true →
      (attrs.map Prod.fst).Nodup →
      (∀ c ∈ cs, WfTree c) →
      WfTree (.elem tag attrs cs)

/-- Round trip over a list of well-formed subtrees, for any uuid supply:
the rebuilt forest is pointwise `ReconEq` to the original. -/
theorem roundtripList : ∀ (cs : List YNode) (fresh : Nat), (∀ c ∈ cs, WfTree c) →
    List.Forall₂ ReconEq cs (createNodes fresh (serializeList cs)).1
  | [], _, _ => by
    simp only [serializeList, createNodes]
    exact List.Forall₂.nil
  | c :: rest, fresh, h => by
    have hc : WfTree c := h c (List.mem_cons_self c rest)
    have hrest : ∀ x ∈ rest, WfTree x := fun x hx => h x (List.mem_cons_of_mem c hx)
    rw [serializeList, createNodes_cons]
    cases c with
    | text d =>
      refine List.Forall₂.cons ?_ (roundtripList rest _ hrest)
      show ReconEq (YNode.text d) (createNode fresh (serialize (.text d))).1
      simp only [serialize, createNode, Option.getD_some]
      exact ReconEq.text d
    | elem tag attrs cs' =>
      cases hc with
      | elem _ _ _ hid hn hkids =>
        refine List.Forall₂.cons ?_ (roundtripList rest _ hrest)
        show ReconEq (YNode.elem tag attrs cs') (createNode fresh (serialize (.elem tag attrs cs'))).1
        cases hlid : lookupAttr "id" attrs with
        | some v =>
          have hcn : (createNode fresh (serialize (.elem tag attrs cs'))).1 =
              .elem "UNDEFINED" (setAllAttrs (setAttr [] "$id" v) attrs)
                (createNodes fresh (serializeList cs')).1 := by
            cases hkr : createNodes fresh (serializeList cs') with
            | mk kids f2 => simp [serialize, createNode, hlid, hkr]
          rw [hcn]
          exact ReconEq.elem tag attrs cs' _ _
            (fun k => lookupAttr_rebuild attrs v hid hn k)
            (roundtripList cs' fresh hkids)
        | none =>
          have hcn : (createNode fresh (serialize (.elem tag attrs cs'))).1 =
              .elem "UNDEFINED" (setAllAttrs (setAttr [] "$id" (genId fresh)) attrs)
                (createNodes (fresh + 1) (serializeList cs')).1 := by
            cases hkr : createNodes (fresh + 1) (serializeList cs') with
            | mk kids f2 => simp [serialize, createNode, hlid, hkr]
          rw [hcn]
          exact ReconEq.elem tag attrs cs' _ _
            (fun k => lookupAttr_rebuild attrs (genId fresh) hid hn k)
            (roundtripList cs' (fresh + 1) hkids)

/-- Counterexample for C1 as stated: rebuilding the serialized form of a
`div` element yields an element tagged `"UNDEFINED"` (attributes and
children intact), not a tree equal to the original in tag names —
`serialize` writes the tag under `tagName` while `createNodes` reads
`name`. -/
theorem roundtrip_tag_counterexample :
    (createNodes 0 [serialize (.elem "div" [("$id", "a")] [])]).1 =
      [.elem "UNDEFINED" [("$id", "a")] []] ∧
    (createNodes 0 [serialize (.elem "div" [("$id", "a")] [])]).1 ≠
      [.elem "div" [("$id", "a")] []] := by
  refine ⟨rfl, ?_⟩
  intro hcontra
  rw [show (createNodes 0 [serialize (.elem "div" [("$id", "a")] [])]).1 =
      [YNode.elem "UNDEFINED" [("$id", "a")] []] from rfl] at hcontra
  injection hcontra with h1 h2
  injection h1 with h3 h4 h5
  exact absurd h3 (by decide)

/-- C1 (amended): for a subtree whose elements all carry `$id` and have
duplicate-free attribute records, `buildNodes(serialize(T))` rebuilds a
tree equal to `T` in attribute maps (the `$id` identifier preserved
exactly, never regenerated) and in child structure at all depths — but
every rebuilt element's tag name is `"UNDEFINED"` instead of the original
tag name. -/
theorem roundtrip_amended (T : YNode) (fresh : Nat) (h : WfTree T) :
    List.Forall₂ ReconEq [T] (createNodes fresh [serialize T]).1 :=
  roundtripList [T] fresh (by
    intro c hc
    rw [List.mem_singleton] at hc
    subst hc
    exact h)

/-- Witness for the amended C1 at a two-level tree. -/
theorem roundtrip_amended_witness :
    List.Forall₂ ReconEq [.elem "div" [("$id", "x")] [.text [⟨"hi", none⟩]]]
      (createNodes 0 [serialize (.elem "div" [("$id", "x")] [.text [⟨"hi", none⟩]])]).1 :=
  roundtrip_amended (.elem "div" [("$id", "x")] [.text [⟨"hi", none⟩]]) 0
    (WfTree.elem "div" [("$id", "x")] [.text [⟨"hi", none⟩]] (by decide) (by decide)
      (fun c hc => by
        rw [List.mem_singleton] at hc
        subst hc
        exact WfTree.text [⟨"hi", none⟩]))

/-- Closed form of `createNode` on an element spec. -/
theorem createNode_elem_eq (name tagName : Option String) (oa : Option Attrs)
    (och : Option (List NodeSpec)) (fresh : Nat) :
    (createNode fresh (.element name tagName oa och)).1 =
      .elem (name.getD "UNDEFINED")
        (setAllAttrs (setAttr [] "$id" ((oa.bind (lookupAttr "id")).getD (genId fresh)))
          (oa.getD []))
        (match och with
         | some cs =>
           (createNodes (if (oa.bind (lookupAttr "id")).isSome then fresh else fresh + 1) cs).1
         | none => []) := by
  cases hid : oa.bind (lookupAttr "id") with
  | some v =>
    cases och with
    | some cs =>
      cases hkr : createNodes fresh cs with
      | mk kids f2 => simp [createNode, hid, hkr]
    | none => simp [createNode, hid]
  | none =>
    cases och with
    | some cs =>
      cases hkr : createNodes (fresh + 1) cs with
      | mk kids f2 => simp [createNode, hid, hkr]
    | none => simp [createNode, hid]

/-- Deep presence of the identifier attribute on every element of a node. -/
inductive HasIdsDeep : YNode → Prop where
  | text (d : List Span) : HasIdsDeep (.text d)
  | elem (tag : String) (attrs : Attrs) (cs : List YNode) :
      (lookupAttr "$id" attrs).isSome = true →
      (∀ c ∈ cs, HasIdsDeep c) →
      HasIdsDeep (.elem tag attrs cs)

/-- Every node built by `createNodes` carries a `$id` attribute on every
element, at all depths (the `$id` write happens before the attribute copy,
and copying can only overwrite its value, never remove the key). -/
theorem createNodes_hasIds : ∀ (specs : List NodeSpec) (fresh : Nat),
    ∀ n ∈ (createNodes fresh specs).1, HasIdsDeep n
  | [], _, n, hn => by simp [createNodes] at hn
  | s :: ss, fresh, n, hn => by
    rw [createNodes_cons] at hn
    rcases List.mem_cons.mp hn with heq | hmem
    · subst heq
      cases s with
      | text od =>
        show HasIdsDeep (createNode fresh (.text od)).1
        simp only [createNode]
        exact HasIdsDeep.text (od.getD [])
      | element name tagName oa och =>
        rw [createNode_elem_eq]
        refine HasIdsDeep.elem _ _ _ ?_ ?_
        · apply lookupAttr_setAllAttrs_isSome
          rw [lookupAttr_setAttr_self]
          rfl
        · cases och with
          | none =>
            intro c hc
            simp at hc
          | some cs =>
            intro c hc
            exact createNodes_hasIds cs _ c hc
    · exact createNodes_hasIds ss _ n hmem

/-- Generated identifiers are never the empty string. -/
theorem genId_ne_empty (n : Nat) : genId n ≠ "" := by
  intro h
  have h5 := congrArg String.length h
  rw [genId, String.length_append] at h5
  have hu : ("uuid:" : String).length = 5 := rfl
  have he : ("" : String).length = 0 := rfl
  rw [hu, he] at h5
  omega

/-- Identifier assigned to a built element whose spec attributes carry no
`$id` key: the explicit `id` attribute when the key is present (whatever
its value, the empty string included), a freshly generated string
otherwise. -/
theorem createNode_id_value (name tagName : Option String) (oa : Option Attrs)
    (och : Option (List NodeSpec)) (fresh : Nat)
    (hnid : lookupAttr "$id" (oa.getD []) = none) :
    lookupAttr "$id" (attrsOf (createNode fresh (.element name tagName oa och)).1) =
      some ((oa.bind (lookupAttr "id")).getD (genId fresh)) := by
  rw [createNode_elem_eq]
  simp only [attrsOf]
  rw [lookupAttr_setAllAttrs_of_none (oa.getD []) _ "$id" hnid, lookupAttr_setAttr_self]

/-- Counterexample for C9 as stated: an explicit empty-string `id` passes
the source's nullish check (`?? uuid()` fires only on a missing key, not on
`""`), so the built element's `$id` is the empty string — not non-empty. -/
theorem buildNodes_empty_id_counterexample :
    (createNodes 0 [.element (some "div") none (some [("id", "")]) none]).1 =
      [.elem "div" [("$id", ""), ("id", "")] []] ∧
    lookupAttr "$id" (attrsOf ((createNodes 0
        [.element (some "div") none (some [("id", "")]) none]).1.headD (.text []))) =
      some "" := ⟨rfl, rfl⟩

/-- C9 (amended): every element built by `buildNodes` carries a `$id`
attribute at all depths; when the spec attributes contain no `$id` key the
assigned value is the explicit `id` attribute whenever that key is present
— even when it is the empty string — and a freshly generated string
otherwise; generated identifiers are never empty. -/
theorem buildNodes_id_assignment :
    (∀ (specs : List NodeSpec) (fresh : Nat), ∀ n ∈ (createNodes fresh specs).1, HasIdsDeep n) ∧
    (∀ (name tagName : Option String) (oa : Option Attrs) (och : Option (List NodeSpec))
        (fresh : Nat), lookupAttr "$id" (oa.getD []) = none →
      lookupAttr "$id" (attrsOf (createNode fresh (.element name tagName oa och)).1) =
        some ((oa.bind (lookupAttr "id")).getD (genId fresh))) ∧
    (∀ n, genId n ≠ "") :=
  ⟨createNodes_hasIds, createNode_id_value, genId_ne_empty⟩

/-- Witness for the amended C9: a spec with no explicit id gets a fresh
generated `$id`, and the built node satisfies the deep-presence property. -/
theorem buildNodes_id_assignment_witness :
    HasIdsDeep (.elem "p" [("$id", genId 0)] []) ∧
    lookupAttr "$id" (attrsOf (createNode 7 (.element (some "p") none none none)).1) =
      some (genId 7) :=
  ⟨buildNodes_id_assignment.1 [.element (some "p") none none none] 0
      (.elem "p" [("$id", genId 0)] []) (by
        rw [show (createNodes 0 [.element (some "p") none none none]).1 =
            [YNode.elem "p" [("$id", genId 0)] []] from rfl]
        exact List.mem_singleton.mpr rfl),
   buildNodes_id_assignment.2.1 (some "p") none none none 7 rfl⟩
